import Mathlib

/-!
Verification of the AposaJson header-only JSON library
(src/include/AposaJson/AposaJson.hpp) against its natural-language
specification.

The C++ source is shallowly embedded: JsonValue becomes a tagged record,
the std::map member backend (the APOSA_JSON_USE_STDMAP configuration, the
deterministic one of the two compile-time backends) becomes a sorted
association list with insert-or-assign semantics, and the two-iterator
parser becomes index-passing functions over a character list.  Reading the
input at an index at or beyond the end of the buffer is undefined behavior
in the C++ source (dereferencing the end iterator or beyond); the embedding
makes that outcome explicit as the PRes.oob result.  Loops of the source
that can fail to terminate are driven by a fuel parameter; running out of
fuel is the PRes.nofuel result and models only non-termination, never a
value the C++ code could produce.
-/

set_option maxHeartbeats 1000000
set_option maxRecDepth 4000

namespace AposaJson

/-- Mirrors enum class JsonValueType (AposaJson.hpp lines 30-38). -/
inductive JsonValueType where
| Null
| Boolean
| Number
| String
| Array
| Object
deriving DecidableEq

/-- Mirrors enum class JsonNumberType (AposaJson.hpp lines 39-49). -/
inductive JsonNumberType where
| Int
| Uint
| Int64
| Uint64
| Double
| Float
| Int16
| String
deriving DecidableEq

/-- Mirrors the anonymous union inside JsonValue (lines 55-63).  The
constructor records which member was last stored.  The C++ code reads a
union member only after dispatching on the matching JsonNumberType, so a
read of an inactive member (undefined behavior in C++) is never exercised
by any verified claim; the extractor functions below return 0 in that
impossible case.  Floating members carry Float; their std::to_string text
is not modelled and no claim depends on it. -/
inductive NumStore where
| intV (v : Int)
| uintV (v : Nat)
| int64V (v : Int)
| uint64V (v : Nat)
| doubleV (v : Float)
| floatV (v : Float)
| int16V (v : Int)

mutual
/-- Mirrors class JsonValue (lines 50-222): the type tag, the numeric
subkind tag, the numeric union, the number text, the boolean, the string,
the array elements and the object members.  JsonValueList models
std::vector of JsonValue; JsonMemberList models the ordered std::map
backend: keys sorted lexicographically, insert-or-assign. -/
inductive JsonValue where
| mk (type : JsonValueType) (numberType : JsonNumberType) (num : NumStore)
     (numberString : String) (boolean : Bool) (string : String)
     (array : JsonValueList) (object : JsonMemberList)
/-- Elements of a JSON array, in storage order (std::vector). -/
inductive JsonValueList where
| nil
| cons (head : JsonValue) (tail : JsonValueList)
/-- Members of a JSON object or document, in map iteration order. -/
inductive JsonMemberList where
| nil
| cons (key : String) (value : JsonValue) (tail : JsonMemberList)
end

/-- The document root is structurally the same member map as an object
(class JsonDocument, lines 223-256). -/
abbrev JsonDocument := JsonMemberList

/-- GetType (lines 79-82). -/
def JsonValue.GetType : JsonValue → JsonValueType
| .mk t _ _ _ _ _ _ _ => t

/-- GetNumberType (lines 83-86). -/
def JsonValue.GetNumberType : JsonValue → JsonNumberType
| .mk _ nt _ _ _ _ _ _ => nt

/-- The union field of a JsonValue. -/
def JsonValue.numField : JsonValue → NumStore
| .mk _ _ num _ _ _ _ _ => num

/-- GetNumberString (lines 103-106). -/
def JsonValue.GetNumberString : JsonValue → String
| .mk _ _ _ ns _ _ _ _ => ns

/-- GetBoolean (lines 93-96). -/
def JsonValue.GetBoolean : JsonValue → Bool
| .mk _ _ _ _ b _ _ _ => b

/-- GetString (lines 190-193). -/
def JsonValue.GetString : JsonValue → String
| .mk _ _ _ _ _ s _ _ => s

/-- GetArray (lines 200-203). -/
def JsonValue.GetArray : JsonValue → JsonValueList
| .mk _ _ _ _ _ _ a _ => a

/-- GetObject (lines 211-221). -/
def JsonValue.GetObject : JsonValue → JsonMemberList
| .mk _ _ _ _ _ _ _ o => o

/-- JsonValue(): only the type tag is set, to Null (line 76).  The C++
constructor leaves every other member default-constructed or, for the
union and the numeric subkind tag, uninitialized; the placeholder values
here stand in for those members, and no verified claim reads one of them
before it has been stored. -/
def JsonValue.init : JsonValue :=
  .mk .Null .Int (.intV 0) "" false "" .nil .nil

/-- JsonValue(JsonValueType type) (line 77): as init but with the given
type tag. -/
def JsonValue.initTyped (t : JsonValueType) : JsonValue :=
  .mk t .Int (.intV 0) "" false "" .nil .nil

/-- SetBoolean (lines 88-92). -/
def JsonValue.SetBoolean : JsonValue → Bool → JsonValue
| .mk _ nt num ns _ s a o, v => .mk .Boolean nt num ns v s a o

/-- SetNumberString (lines 98-102): stores the numeric subkind tag (raw
text) and the number text.  The type tag is not touched. -/
def JsonValue.SetNumberString : JsonValue → String → JsonValue
| .mk t _ num _ b s a o, v => .mk t .String num v b s a o

/-- SetInt (lines 107-112). -/
def JsonValue.SetInt : JsonValue → Int → JsonValue
| .mk _ _ _ ns b s a o, v => .mk .Number .Int (.intV v) ns b s a o

/-- SetUint (lines 118-123). -/
def JsonValue.SetUint : JsonValue → Nat → JsonValue
| .mk _ _ _ ns b s a o, v => .mk .Number .Uint (.uintV v) ns b s a o

/-- SetInt64 (lines 129-134). -/
def JsonValue.SetInt64 : JsonValue → Int → JsonValue
| .mk _ _ _ ns b s a o, v => .mk .Number .Int64 (.int64V v) ns b s a o

/-- SetUint64 (lines 140-145). -/
def JsonValue.SetUint64 : JsonValue → Nat → JsonValue
| .mk _ _ _ ns b s a o, v => .mk .Number .Uint64 (.uint64V v) ns b s a o

/-- SetDouble (lines 151-156). -/
def JsonValue.SetDouble : JsonValue → Float → JsonValue
| .mk _ _ _ ns b s a o, v => .mk .Number .Double (.doubleV v) ns b s a o

/-- SetFloat (lines 162-167). -/
def JsonValue.SetFloat : JsonValue → Float → JsonValue
| .mk _ _ _ ns b s a o, v => .mk .Number .Float (.floatV v) ns b s a o

/-- SetInt16 (lines 173-178).  The C++ parameter type is short. -/
def JsonValue.SetInt16 : JsonValue → Int → JsonValue
| .mk _ _ _ ns b s a o, v => .mk .Number .Int16 (.int16V v) ns b s a o

/-- SetString (lines 185-189). -/
def JsonValue.SetString : JsonValue → String → JsonValue
| .mk _ nt num ns b _ a o, v => .mk .String nt num ns b v a o

/-- push_back on the element vector. -/
def JsonValueList.push : JsonValueList → JsonValue → JsonValueList
| .nil, v => .cons v .nil
| .cons h t, v => .cons h (t.push v)

/-- AddElement (lines 195-199): sets the type tag to Array and appends. -/
def JsonValue.AddElement : JsonValue → JsonValue → JsonValue
| .mk _ nt num ns b s a o, v => .mk .Array nt num ns b s (a.push v) o

/-- Lexicographic comparison of character lists by code point, modelling
operator less-than of std::string as used by std::map. -/
def charListLt : List Char → List Char → Bool
| [], [] => false
| [], _ :: _ => true
| _ :: _, [] => false
| a :: as, b :: bs => if a < b then true else if b < a then false else charListLt as bs

/-- std::string ordering used by the std::map backend. -/
def strLt (a b : String) : Bool := charListLt a.data b.data

/-- Insert-or-assign on the sorted member list: models
map.operator[](key) = value, the effect of AddMember (lines 205-209 and
235-238).  A present key has its value replaced; an absent key is inserted
at its sorted position. -/
def JsonMemberList.insert : JsonMemberList → String → JsonValue → JsonMemberList
| .nil, k, v => .cons k v .nil
| .cons k0 v0 t, k, v =>
  if strLt k k0 then .cons k v (.cons k0 v0 t)
  else if strLt k0 k then .cons k0 v0 (t.insert k v)
  else .cons k v t

/-- Lookup in the member map (map.find). -/
def JsonMemberList.lookup : JsonMemberList → String → Option JsonValue
| .nil, _ => none
| .cons k v t, q => if q = k then some v else t.lookup q

/-- AddMember on a JsonValue (lines 205-209): sets the type tag to Object
and insert-or-assigns. -/
def JsonValue.AddMember : JsonValue → String → JsonValue → JsonValue
| .mk _ nt num ns b s a o, k, v => .mk .Object nt num ns b s a (o.insert k v)

/-- AddMember on a JsonDocument (lines 235-238). -/
def JsonDocument.AddMember (d : JsonDocument) (k : String) (v : JsonValue) : JsonDocument :=
  JsonMemberList.insert d k v

/-! ### Textual-to-numeric conversions

GetInt, GetInt16 and similar getters call std::stoi / std::stoul /
std::stoll / std::stoull / std::stod on the stored number text when the
numeric subkind is the raw-text one.  The integer conversions are modelled
exactly: skip leading C-locale whitespace, an optional sign, then base-10
digits; no digits raises invalid_argument, a converted value outside the
range of the result type raises out_of_range.  On the reference LP64
platform int is 32 bits, unsigned long and unsigned long long are 64
bits, short is 16 bits. -/

/-- A C++ exception escaping a numeric getter. -/
inductive ConvError where
| invalidArgument
| outOfRange
deriving DecidableEq

/-- C-locale isspace, as used by std::stoi and by the whitespace strip in
ParseNumber (line 604). -/
def isCppSpace (c : Char) : Bool :=
  c = ' ' ∨ c = '\t' ∨ c = '\n' ∨ c = '\x0b' ∨ c = '\x0c' ∨ c = '\r'

/-- Value of a base-10 digit string. -/
def digitsVal (l : List Char) : Nat :=
  l.foldl (fun acc c => acc * 10 + (c.toNat - 48)) 0

/-- Shared shape of the strtol family: leading whitespace, optional sign,
base-10 digits, trailing text ignored.  Returns the sign and the digit
magnitude, or invalid_argument when no digit follows the sign. -/
def strtolCore (str : String) : Except ConvError (Bool × Nat) :=
  let l := str.data.dropWhile (fun c => isCppSpace c)
  let signAndRest : Bool × List Char :=
    match l with
    | '-' :: rest => (true, rest)
    | '+' :: rest => (false, rest)
    | _ => (false, l)
  let ds := signAndRest.2.takeWhile Char.isDigit
  if ds.isEmpty then .error .invalidArgument
  else .ok (signAndRest.1, digitsVal ds)

/-- std::stoi: out_of_range outside the 32-bit signed range. -/
def stoiModel (str : String) : Except ConvError Int :=
  match strtolCore str with
  | .error err => .error err
  | .ok (neg, m) =>
    let v : Int := if neg then -(m : Int) else (m : Int)
    if v < -(2 ^ 31) ∨ 2 ^ 31 - 1 < v then .error .outOfRange else .ok v

/-- std::stoull: strtoull negates a signed magnitude in unsigned 64-bit
arithmetic; out_of_range only when the digit magnitude itself exceeds the
64-bit unsigned maximum. -/
def stoullModel (str : String) : Except ConvError Nat :=
  match strtolCore str with
  | .error err => .error err
  | .ok (neg, m) =>
    if 2 ^ 64 - 1 < m then .error .outOfRange
    else .ok (if neg then (2 ^ 64 - m % 2 ^ 64) % 2 ^ 64 else m)

/-- Reading the int member of the union.  The 0 fallback stands for the
undefined-behavior read of an inactive member, never exercised. -/
def NumStore.intMember : NumStore → Int
| .intV v => v
| _ => 0

/-- Reading the unsigned int member of the union. -/
def NumStore.uintMember : NumStore → Nat
| .uintV v => v
| _ => 0

/-- Reading the int64_t member of the union. -/
def NumStore.int64Member : NumStore → Int
| .int64V v => v
| _ => 0

/-- Reading the uint64_t member of the union. -/
def NumStore.uint64Member : NumStore → Nat
| .uint64V v => v
| _ => 0

/-- Reading the short member of the union. -/
def NumStore.int16Member : NumStore → Int
| .int16V v => v
| _ => 0

/-- Reading the double member of the union. -/
def NumStore.doubleMember : NumStore → Float
| .doubleV v => v
| _ => 0

/-- Reading the float member of the union. -/
def NumStore.floatMember : NumStore → Float
| .floatV v => v
| _ => 0

/-- The int-to-short conversion applied to the result of std::stoi inside
GetInt16: two-complement wrap-around into the 16-bit signed range. -/
def int16OfInt (i : Int) : Int := (i + 32768) % 65536 - 32768

/-- GetInt (lines 113-117): std::stoi on the raw text when the subkind is
raw text, the int union member otherwise.  The Except result carries the
exception std::stoi may throw. -/
def JsonValue.GetInt (v : JsonValue) : Except ConvError Int :=
  if v.GetNumberType = .String then stoiModel v.GetNumberString
  else .ok v.numField.intMember

/-- GetInt16 (lines 179-183): the C++ body calls std::stoi, a 32-bit
conversion, and implicitly converts the int result to short on return. -/
def JsonValue.GetInt16 (v : JsonValue) : Except ConvError Int :=
  if v.GetNumberType = .String then (stoiModel v.GetNumberString).map int16OfInt
  else .ok v.numField.int16Member

/-- GetUint64 (lines 146-150): std::stoull on the raw text when the
subkind is raw text. -/
def JsonValue.GetUint64 (v : JsonValue) : Except ConvError Nat :=
  if v.GetNumberType = .String then stoullModel v.GetNumberString
  else .ok v.numField.uint64Member

/-! ### Serializer

GenArray (lines 266-328), GenObject (lines 329-392) and SerializeObject
(lines 397-471) each inline one copy of the same per-value switch over
GetType and GetNumberType.  The switch is rendered here once as
renderValue; GenKey (lines 261-264) is inlined into the member rendering;
the comma bookkeeping (append a comma after every entry but the last)
becomes the two-cons pattern.  The concatenation order of the C++
accumulator string is preserved, so the output text is identical. -/

/-- std::to_string on a signed integer: decimal with a leading minus for
negative values. -/
def cppIntString (i : Int) : String := toString i

/-- std::to_string on an unsigned integer. -/
def cppNatString (n : Nat) : String := toString n

/-- std::to_string on double or float.  Stand-in rendering: the fixed
six-decimal format of the C++ call is not modelled and no claim depends
on this branch. -/
def cppFloatString (f : Float) : String := toString f

mutual
/-- The per-value switch shared by GenArray, GenObject and
SerializeObject. -/
def renderValue : JsonValue → String
| .mk t nt num ns b s arr obj =>
  match t with
  | .Null => "null"
  | .Boolean => if b then "true" else "false"
  | .Number =>
    match nt with
    | .Int => cppIntString num.intMember
    | .Uint => cppNatString num.uintMember
    | .Int64 => cppIntString num.int64Member
    | .Uint64 => cppNatString num.uint64Member
    | .Double => cppFloatString num.doubleMember
    | .Float => cppFloatString num.floatMember
    | .Int16 => cppIntString num.int16Member
    | .String => ns
  | .String => "\"" ++ s ++ "\""
  | .Array => "[" ++ renderElems arr ++ "]"
  | .Object => "\x7b" ++ renderMembers obj ++ "\x7d"
/-- Element rendering of GenArray: comma after every element but the
last. -/
def renderElems : JsonValueList → String
| .nil => ""
| .cons v .nil => renderValue v
| .cons v (.cons w t) => renderValue v ++ "," ++ renderElems (.cons w t)
/-- Member rendering of GenObject and SerializeObject: GenKey then the
value switch, comma after every member but the last. -/
def renderMembers : JsonMemberList → String
| .nil => ""
| .cons k v .nil => "\"" ++ k ++ "\":" ++ renderValue v
| .cons k v (.cons k2 v2 t) =>
  "\"" ++ k ++ "\":" ++ renderValue v ++ "," ++ renderMembers (.cons k2 v2 t)
end

/-- SerializeObject (lines 397-471): braces around the rendered members of
the document map, in map iteration order. -/
def serializeObject (doc : JsonDocument) : String :=
  "\x7b" ++ renderMembers doc ++ "\x7d"

/-! ### Parser

Class JsonParser (lines 473-711).  The two iterators become an index pos
and an end index e over the character list s; e is the working-range end
the root ParseJson establishes by decrementing the end iterator once
(line 484), so e is the index of the last input character.  Dereferencing
the input at an index at or beyond s.length is the undefined past-the-end
read of the C++ source and yields PRes.oob.  The loop functions consume
one unit of fuel per step; PRes.nofuel models non-termination (the source
can loop forever, for example ParseArray over an element ParseValue that
does not advance the cursor). -/

/-- Outcome of a parsing step. -/
inductive PRes (α : Type) where
| ok (val : α)
| oob
| nofuel

/-- Loop of ParseString (lines 568-580) after the initial increment:
accumulate characters until the closing quote, which is consumed. -/
def parseStringAux (s : List Char) : Nat → Nat → List Char → PRes (List Char × Nat)
| 0, _, _ => .nofuel
| fuel + 1, pos, acc =>
  if h : pos < s.length then
    let c := s.get ⟨pos, h⟩
    if c = '"' then .ok (acc, pos + 1)
    else parseStringAux s fuel (pos + 1) (acc ++ [c])
  else .oob

/-- ParseString (lines 568-580): step over the opening quote, accumulate
until the closing quote, return the cache with the cursor one past the
closing quote. -/
def parseString (s : List Char) (fuel pos : Nat) : PRes (String × Nat) :=
  match parseStringAux s fuel (pos + 1) [] with
  | .ok (l, p) => .ok (String.mk l, p)
  | .oob => .oob
  | .nofuel => .nofuel

/-- Loop of ParseNumber (lines 595-606).  The loop continues while
(c different from comma) or (pos equals e), so a comma stops it only
strictly before the working-range end; a closing brace always stops it
(cursor left on the delimiter in both cases); any other character,
including one at the working-range end, is accumulated. -/
def parseNumberAux (s : List Char) (e : Nat) : Nat → Nat → List Char → PRes (List Char × Nat)
| 0, _, _ => .nofuel
| fuel + 1, pos, acc =>
  if h : pos < s.length then
    let c := s.get ⟨pos, h⟩
    if c = ',' ∧ pos ≠ e then .ok (acc, pos)
    else if c = '}' then .ok (acc, pos)
    else parseNumberAux s e fuel (pos + 1) (acc ++ [c])
  else .oob

/-- ParseNumber (lines 595-606): accumulate, then erase isspace
characters from the cache. -/
def parseNumber (s : List Char) (e : Nat) (fuel pos : Nat) : PRes (String × Nat) :=
  match parseNumberAux s e fuel pos [] with
  | .ok (l, p) => .ok (String.mk (l.filter (fun c => !isCppSpace c)), p)
  | .oob => .oob
  | .nofuel => .nofuel

/-- ParseBoolean (lines 585-594): one dereference of the current
character; t advances the cursor 4 positions and yields true, anything
else advances 5 positions and yields false.  No other character of the
literal is inspected. -/
def parseBoolean (s : List Char) (pos : Nat) : PRes (Bool × Nat) :=
  if h : pos < s.length then
    if s.get ⟨pos, h⟩ = 't' then .ok (true, pos + 4) else .ok (false, pos + 5)
  else .oob

mutual
/-- ParseValue (lines 608-665): scan while pos differs from e,
dispatching on the current character; falling off the range returns a
default-constructed (Null) value with the cursor unmoved. -/
def parseValue (s : List Char) (e : Nat) : Nat → Nat → PRes (JsonValue × Nat)
| 0, _ => .nofuel
| fuel + 1, pos =>
  if pos = e then .ok (JsonValue.init, pos)
  else if h : pos < s.length then
    let c := s.get ⟨pos, h⟩
    if c = 'n' then .ok (JsonValue.initTyped .Null, pos)
    else if c = 't' ∨ c = 'f' then
      match parseBoolean s pos with
      | .ok (b, p) => .ok (JsonValue.init.SetBoolean b, p)
      | .oob => .oob
      | .nofuel => .nofuel
    else if c = '"' then
      match parseString s fuel pos with
      | .ok (str, p) => .ok (JsonValue.init.SetString str, p)
      | .oob => .oob
      | .nofuel => .nofuel
    else if c = '[' then parseArray s e fuel pos
    else if c = '{' then parseObject s e fuel pos
    else if c.isDigit then
      match parseNumber s e fuel pos with
      | .ok (txt, p) => .ok ((JsonValue.initTyped .Number).SetNumberString txt, p)
      | .oob => .oob
      | .nofuel => .nofuel
    else parseValue s e fuel (pos + 1)
  else .oob
termination_by structural fuel _ => fuel

/-- ParseArray (lines 666-679): step over the opening bracket, then loop.
The closing bracket is NOT consumed: the cursor is left on it. -/
def parseArray (s : List Char) (e : Nat) : Nat → Nat → PRes (JsonValue × Nat)
| 0, _ => .nofuel
| fuel + 1, pos => parseArrayLoop s e fuel (pos + 1) (JsonValue.initTyped .Array)
termination_by structural fuel _ => fuel

/-- Loop of ParseArray: skip separators, otherwise parse one value and
append it. -/
def parseArrayLoop (s : List Char) (e : Nat) : Nat → Nat → JsonValue → PRes (JsonValue × Nat)
| 0, _, _ => .nofuel
| fuel + 1, pos, acc =>
  if h : pos < s.length then
    let c := s.get ⟨pos, h⟩
    if c = ']' then .ok (acc, pos)
    else if c = ',' ∨ c = ' ' ∨ c = '\n' then parseArrayLoop s e fuel (pos + 1) acc
    else
      match parseValue s e fuel pos with
      | .ok (v, p) => parseArrayLoop s e fuel p (acc.AddElement v)
      | .oob => .oob
      | .nofuel => .nofuel
  else .oob
termination_by structural fuel _ _ => fuel

/-- ParseObject (lines 680-699): step over the opening brace, then loop.
The closing brace IS consumed (the cursor ends one past it). -/
def parseObject (s : List Char) (e : Nat) : Nat → Nat → PRes (JsonValue × Nat)
| 0, _ => .nofuel
| fuel + 1, pos => parseObjectLoop s e fuel (pos + 1) (JsonValue.initTyped .Object)
termination_by structural fuel _ => fuel

/-- Loop of ParseObject: skip separators; otherwise parse a key string
(whatever the current character is) then a value, and insert the member. -/
def parseObjectLoop (s : List Char) (e : Nat) : Nat → Nat → JsonValue → PRes (JsonValue × Nat)
| 0, _, _ => .nofuel
| fuel + 1, pos, acc =>
  if h : pos < s.length then
    let c := s.get ⟨pos, h⟩
    if c = '}' then .ok (acc, pos + 1)
    else if c = ',' ∨ c = ' ' ∨ c = '\n' then parseObjectLoop s e fuel (pos + 1) acc
    else
      match parseString s fuel pos with
      | .ok (k, p1) =>
        match parseValue s e fuel p1 with
        | .ok (v, p2) => parseObjectLoop s e fuel p2 (acc.AddMember k v)
        | .oob => .oob
        | .nofuel => .nofuel
      | .oob => .oob
      | .nofuel => .nofuel
  else .oob
termination_by structural fuel _ _ => fuel

/-- Member-scanning loop of ParseJson (lines 487-562).  The for loop runs
while pos differs from e; after every dispatched case the for increment
adds one more to the cursor position the case left behind (this is what
lets the cursor jump past e and read out of bounds).  The default case
only advances. -/
def parseJsonLoop (s : List Char) (e : Nat) :
    Nat → Nat → Bool → String → JsonDocument → PRes JsonDocument
| 0, _, _, _, _ => .nofuel
| fuel + 1, pos, isKey, key, doc =>
  if pos = e then .ok doc
  else if h : pos < s.length then
    let c := s.get ⟨pos, h⟩
    if c = 'n' then
      parseJsonLoop s e fuel (pos + 1) false key (doc.AddMember key (JsonValue.initTyped .Null))
    else if c = 't' ∨ c = 'f' then
      match parseBoolean s pos with
      | .ok (b, p) =>
        parseJsonLoop s e fuel (p + 1) false key (doc.AddMember key (JsonValue.init.SetBoolean b))
      | .oob => .oob
      | .nofuel => .nofuel
    else if c = '"' then
      match parseString s fuel pos with
      | .ok (txt, p) =>
        if isKey then
          parseJsonLoop s e fuel (p + 1) false key (doc.AddMember key (JsonValue.init.SetString txt))
        else
          parseJsonLoop s e fuel (p + 1) true txt doc
      | .oob => .oob
      | .nofuel => .nofuel
    else if c = '[' then
      match parseArray s e fuel pos with
      | .ok (v, p) => parseJsonLoop s e fuel (p + 1) false key (doc.AddMember key v)
      | .oob => .oob
      | .nofuel => .nofuel
    else if c = '{' then
      match parseObject s e fuel pos with
      | .ok (v, p) => parseJsonLoop s e fuel (p + 1) false key (doc.AddMember key v)
      | .oob => .oob
      | .nofuel => .nofuel
    else if c.isDigit then
      match parseNumber s e fuel pos with
      | .ok (txt, p) =>
        parseJsonLoop s e fuel (p + 1) false key
          (doc.AddMember key ((JsonValue.initTyped .Number).SetNumberString txt))
      | .oob => .oob
      | .nofuel => .nofuel
    else parseJsonLoop s e fuel (pos + 1) isKey key doc
  else .oob
termination_by structural fuel _ _ _ _ => fuel
end

/-- ParseJson (lines 479-566): an input whose first character is an
opening brace narrows the working range (cursor to index 1, end to the
last character) and scans members; any other first character yields an
empty document. -/
def parseJson (s : List Char) (fuel : Nat) : PRes JsonDocument :=
  if h : 0 < s.length then
    if s.get ⟨0, h⟩ = '{' then parseJsonLoop s (s.length - 1) fuel 1 false "" JsonMemberList.nil
    else .ok JsonMemberList.nil
  else .oob

/-- Parse (lines 704-710): empty input yields an empty document without
touching the iterators; otherwise ParseJson runs on the buffer. -/
def parse (s : List Char) (fuel : Nat) : PRes JsonDocument :=
  if s.isEmpty then .ok JsonMemberList.nil else parseJson s fuel

/-- Parse on a Lean string literal. -/
def parseTopLevel (str : String) (fuel : Nat) : PRes JsonDocument :=
  parse str.data fuel

/-- The parser builds number values as JsonValue(JsonValueType::Number)
followed by SetNumberString (lines 553-554 and 654-655). -/
def numberRaw (txt : String) : JsonValue :=
  (JsonValue.initTyped .Number).SetNumberString txt

/-! ### Specification-side definitions

claimRenderValue is written from the words of the specification of the
serializer (claim C8): Null as null, Boolean as true or false, a raw-text
Number emitted verbatim, a String as its text wrapped in double quotes
with no escaping, an Array as bracketed comma-separated elements in
storage order, an Object as braced comma-separated key-colon-value pairs
in the member map iteration order, no inserted whitespace.  The claim
gives no rendering for a Number of a typed (non-raw) subkind, so that
branch is a placeholder and the comparison theorem restricts documents to
raw-text numbers. -/

mutual
/-- Rendering of one value as the specification words it. -/
def claimRenderValue : JsonValue → String
| .mk t nt _ ns b s arr obj =>
  match t with
  | .Null => "null"
  | .Boolean => if b then "true" else "false"
  | .Number => match nt with
    | .String => ns
    | _ => ""
  | .String => "\"" ++ s ++ "\""
  | .Array => "[" ++ claimRenderElems arr ++ "]"
  | .Object => "\x7b" ++ claimRenderMembers obj ++ "\x7d"
/-- Comma-separated element list. -/
def claimRenderElems : JsonValueList → String
| .nil => ""
| .cons v rest =>
  claimRenderValue v ++ (match rest with | .nil => "" | .cons _ _ => ",") ++ claimRenderElems rest
/-- Comma-separated key-colon-value pairs. -/
def claimRenderMembers : JsonMemberList → String
| .nil => ""
| .cons k v rest =>
  "\"" ++ k ++ "\":" ++ claimRenderValue v
    ++ (match rest with | .nil => "" | .cons _ _ _ => ",") ++ claimRenderMembers rest
end

/-- The specification rendering of a whole document. -/
def claimRenderDoc (d : JsonDocument) : String :=
  "\x7b" ++ claimRenderMembers d ++ "\x7d"

mutual
/-- Every Number in the value tree has the raw-text subkind. -/
def OnlyRawV : JsonValue → Bool
| .mk t nt _ _ _ _ arr obj =>
  (if t = .Number then nt = JsonNumberType.String else (true : Bool))
    && OnlyRawL arr && OnlyRawM obj
/-- OnlyRawV over an element list. -/
def OnlyRawL : JsonValueList → Bool
| .nil => true
| .cons v rest => OnlyRawV v && OnlyRawL rest
/-- OnlyRawV over a member list. -/
def OnlyRawM : JsonMemberList → Bool
| .nil => true
| .cons _ v rest => OnlyRawV v && OnlyRawM rest
end

/-- The first character of the string is a base-10 digit. -/
def headDigit (s : String) : Bool :=
  match s.data with
  | [] => false
  | c :: _ => c.isDigit

mutual
/-- Every Number value in the tree carries raw text whose first character
is a digit (in particular the text is nonempty and does not start with a
minus sign). -/
def ValueOk : JsonValue → Bool
| .mk t _ _ ns _ _ arr obj =>
  (if t = .Number then headDigit ns else (true : Bool)) && ValueOkL arr && ValueOkM obj
/-- ValueOk over an element list. -/
def ValueOkL : JsonValueList → Bool
| .nil => true
| .cons v rest => ValueOk v && ValueOkL rest
/-- ValueOk over a member list. -/
def ValueOkM : JsonMemberList → Bool
| .nil => true
| .cons _ v rest => ValueOk v && ValueOkM rest
end

/-- ValueOk over all member values of a document. -/
def DocOk (d : JsonDocument) : Bool := ValueOkM d

/-! ## Induction principles for the mutual value tree -/

mutual
/-- Simultaneous induction over the three mutual types, value side. -/
def valueInd {mv : JsonValue → Prop} {ml : JsonValueList → Prop} {mm : JsonMemberList → Prop}
    (hmk : ∀ t nt num ns b s arr obj, ml arr → mm obj → mv (.mk t nt num ns b s arr obj))
    (hlnil : ml .nil) (hlcons : ∀ v rest, mv v → ml rest → ml (.cons v rest))
    (hmnil : mm .nil) (hmcons : ∀ k v rest, mv v → mm rest → mm (.cons k v rest)) :
    ∀ v, mv v
| .mk t nt num ns b s arr obj =>
  hmk t nt num ns b s arr obj
    (elemsInd hmk hlnil hlcons hmnil hmcons arr)
    (membersInd hmk hlnil hlcons hmnil hmcons obj)
/-- Simultaneous induction, element-list side. -/
def elemsInd {mv : JsonValue → Prop} {ml : JsonValueList → Prop} {mm : JsonMemberList → Prop}
    (hmk : ∀ t nt num ns b s arr obj, ml arr → mm obj → mv (.mk t nt num ns b s arr obj))
    (hlnil : ml .nil) (hlcons : ∀ v rest, mv v → ml rest → ml (.cons v rest))
    (hmnil : mm .nil) (hmcons : ∀ k v rest, mv v → mm rest → mm (.cons k v rest)) :
    ∀ l, ml l
| .nil => hlnil
| .cons v rest =>
  hlcons v rest (valueInd hmk hlnil hlcons hmnil hmcons v)
    (elemsInd hmk hlnil hlcons hmnil hmcons rest)
/-- Simultaneous induction, member-list side. -/
def membersInd {mv : JsonValue → Prop} {ml : JsonValueList → Prop} {mm : JsonMemberList → Prop}
    (hmk : ∀ t nt num ns b s arr obj, ml arr → mm obj → mv (.mk t nt num ns b s arr obj))
    (hlnil : ml .nil) (hlcons : ∀ v rest, mv v → ml rest → ml (.cons v rest))
    (hmnil : mm .nil) (hmcons : ∀ k v rest, mv v → mm rest → mm (.cons k v rest)) :
    ∀ m, mm m
| .nil => hmnil
| .cons k v rest =>
  hmcons k v rest (valueInd hmk hlnil hlcons hmnil hmcons v)
    (membersInd hmk hlnil hlcons hmnil hmcons rest)
end

/-- Tail induction over a member list alone. -/
def memberTailInd {motive : JsonMemberList → Prop} (hnil : motive .nil)
    (hcons : ∀ k v t, motive t → motive (.cons k v t)) : ∀ m, motive m
| .nil => hnil
| .cons k v t => hcons k v t (memberTailInd hnil hcons t)

/-- Tail induction over an element list alone. -/
def elemTailInd {motive : JsonValueList → Prop} (hnil : motive .nil)
    (hcons : ∀ v t, motive t → motive (.cons v t)) : ∀ l, motive l
| .nil => hnil
| .cons v t => hcons v t (elemTailInd hnil hcons t)

/-! ## Helper lemmas -/

theorem charListLt_irrefl (l : List Char) : charListLt l l = false := by
  induction l with
  | nil => rfl
  | cons a as ih => simp [charListLt, ih]

theorem strLt_irrefl (a : String) : strLt a a = false :=
  charListLt_irrefl a.data

theorem lookup_insert (m : JsonMemberList) (k : String) (v : JsonValue) :
    (m.insert k v).lookup k = some v := by
  induction m using memberTailInd with
  | hnil => simp [JsonMemberList.insert, JsonMemberList.lookup]
  | hcons k0 v0 t ih =>
    by_cases h1 : strLt k k0
    · simp [JsonMemberList.insert, h1, JsonMemberList.lookup]
    · by_cases h2 : strLt k0 k
      · have hne : k ≠ k0 := by
          intro he
          rw [he] at h2
          rw [strLt_irrefl] at h2
          exact absurd h2 (by simp)
        simp [JsonMemberList.insert, h1, h2, JsonMemberList.lookup, hne, ih]
      · simp [JsonMemberList.insert, h1, h2, JsonMemberList.lookup]

/-! ## Claim theorems -/

/-- C1: the specified round trip Parse(Serialize(d)) == d fails on the
code: for the document d with the single member a mapped to Boolean true
(unescaped ASCII leaves only), Serialize yields the expected text but
Parse of that text advances the cursor past the end of the buffer (the
out-of-bounds outcome) instead of returning a document, because the
member-scanning for loop adds its own increment after ParseBoolean has
already advanced the cursor to the working-range end. -/
theorem c1_roundtrip_fails_oob :
    serializeObject (JsonMemberList.cons "a" (JsonValue.init.SetBoolean true) .nil)
      = "\x7b\"a\":true\x7d"
    ∧ parseTopLevel "\x7b\"a\":true\x7d" 100 = .oob :=
  ⟨rfl, rfl⟩

/-- C2: no ParseError is reported for the malformed literal tru.
ParseBoolean at the t dispatch returns true after a fixed skip of 4
characters (landing one past the closing brace), and the member loop then
advances the cursor out of bounds; the parse ends in the undefined
out-of-bounds outcome, not in any error result. -/
theorem c2_no_parse_error :
    parseTopLevel "\x7b\"a\":tru\x7d" 100 = .oob
    ∧ parseBoolean "\x7b\"a\":tru\x7d".data 5 = .ok (true, 9) :=
  ⟨rfl, rfl⟩

/-- C4: Parse of the empty input and of the empty object both yield the
empty document without any error, and Parse of any input whose first
character is not an opening brace yields the empty document without any
error. -/
theorem c4_trivial_inputs :
    parseTopLevel "" 100 = .ok .nil
    ∧ parseTopLevel "\x7b\x7d" 100 = .ok .nil
    ∧ (∀ (c : Char) (cs : List Char) (fuel : Nat),
        c ≠ '{' → parse (c :: cs) fuel = .ok .nil) := by
  refine ⟨rfl, rfl, ?_⟩
  intro c cs fuel hc
  simp [parse, parseJson, hc]

/-- Witness for C4 at the concrete input x. -/
theorem c4_trivial_inputs_witness : parse ['x'] 3 = .ok .nil :=
  c4_trivial_inputs.2.2 'x' [] 3 (by decide)

/-- C6: ParseBoolean dispatches purely on the character under the cursor:
on t it yields true and moves the cursor exactly 4 positions, on f it
yields false and moves exactly 5 positions, and its result depends on no
other character of the input, so wrong literal text is skipped silently. -/
theorem c6_parseBoolean_fixed_skip :
    (∀ (s : List Char) (pos : Nat) (h : pos < s.length),
      s.get ⟨pos, h⟩ = 't' → parseBoolean s pos = .ok (true, pos + 4))
    ∧ (∀ (s : List Char) (pos : Nat) (h : pos < s.length),
      s.get ⟨pos, h⟩ = 'f' → parseBoolean s pos = .ok (false, pos + 5))
    ∧ (∀ (s1 s2 : List Char) (pos : Nat) (h1 : pos < s1.length) (h2 : pos < s2.length),
      s1.get ⟨pos, h1⟩ = s2.get ⟨pos, h2⟩ → parseBoolean s1 pos = parseBoolean s2 pos) := by
  refine ⟨?_, ?_, ?_⟩
  · intro s pos h hc
    simp only [List.get_eq_getElem] at hc
    simp [parseBoolean, h, hc]
  · intro s pos h hc
    simp only [List.get_eq_getElem] at hc
    simp [parseBoolean, h, hc]
  · intro s1 s2 pos h1 h2 hc
    simp only [List.get_eq_getElem] at hc
    simp [parseBoolean, h1, h2, hc]

/-- Witness for C6: true and false literals and two inputs agreeing only
at the dispatch position. -/
theorem c6_parseBoolean_fixed_skip_witness :
    parseBoolean ['t', 'r', 'u'] 0 = .ok (true, 4)
    ∧ parseBoolean ['f', 'z'] 0 = .ok (false, 5)
    ∧ parseBoolean ['t', 'a'] 0 = parseBoolean ['t', 'b'] 0 :=
  ⟨c6_parseBoolean_fixed_skip.1 ['t', 'r', 'u'] 0 (by decide) rfl,
   c6_parseBoolean_fixed_skip.2.1 ['f', 'z'] 0 (by decide) rfl,
   c6_parseBoolean_fixed_skip.2.2 ['t', 'a'] ['t', 'b'] 0 (by decide) (by decide) rfl⟩

/-- C7: insert-or-assign on the member map replaces the value stored
under an existing key (last write wins).  On the exact input of the claim
the parser does build the map with a mapped to Number(2), but the member
loop then walks the cursor past the end of the buffer, so Parse ends in
the undefined out-of-bounds outcome instead of returning that document;
with one extra trailing character the loop stops at the working-range end
and the document with a mapped to raw Number 2 is returned. -/
theorem c7_last_write_wins :
    (∀ (m : JsonMemberList) (k : String) (v : JsonValue),
      (m.insert k v).lookup k = some v)
    ∧ parseTopLevel "\x7b\"a\":1,\"a\":2\x7d" 100 = .oob
    ∧ parseTopLevel "\x7b\"a\":1,\"a\":2\x7dx" 100
        = .ok (.cons "a" (numberRaw "2") .nil) :=
  ⟨lookup_insert, rfl, rfl⟩

/-- C3 counterexample: GetInt16 does not fail on raw text outside the
16-bit range; it converts through std::stoi (32-bit) and silently
truncates the int result to short, so raw text 40000 yields -25536
instead of a conversion error. -/
theorem c3_getInt16_truncates :
    stoiModel "40000" = .ok 40000
    ∧ (numberRaw "40000").GetInt16 = .ok (-25536) :=
  ⟨rfl, rfl⟩

/-- C3 amended: the raw-text getters convert on every access; GetInt
fails with invalid_argument on non-numeric text and with out_of_range on
text outside the signed 32-bit range (it can never return an
out-of-range value, last conjunct); GetUint64 yields the full unsigned
64-bit maximum; but GetInt16 silently truncates int-representable text
outside the 16-bit range instead of failing. -/
theorem c3_numeric_getters :
    (numberRaw "42").GetInt = .ok 42
    ∧ (numberRaw "18446744073709551615").GetUint64 = .ok 18446744073709551615
    ∧ (numberRaw "18446744073709551615").GetInt = .error .outOfRange
    ∧ (numberRaw "abc").GetInt = .error .invalidArgument
    ∧ (numberRaw "40000").GetInt16 = .ok (-25536)
    ∧ (∀ (str : String) (i : Int),
        stoiModel str = .ok i → -(2 ^ 31) ≤ i ∧ i ≤ 2 ^ 31 - 1) := by
  refine ⟨rfl, rfl, rfl, rfl, rfl, ?_⟩
  intro str i h
  unfold stoiModel at h
  cases hc : strtolCore str with
  | error err => rw [hc] at h; exact absurd h (by simp)
  | ok p =>
    obtain ⟨neg, m⟩ := p
    rw [hc] at h
    simp only at h
    split at h
    all_goals split at h
    all_goals try (rename_i hrange; push_neg at hrange)
    all_goals simp at h
    all_goals omega

/-- Witness for C3 amended at the raw text 42. -/
theorem c3_numeric_getters_witness :
    -(2 ^ 31) ≤ (42 : Int) ∧ (42 : Int) ≤ 2 ^ 31 - 1 :=
  c3_numeric_getters.2.2.2.2.2 "42" 42 rfl

/-- C5: ParseNumber accumulates raw characters, stops on a comma only
when the cursor is strictly before the working-range end, always stops on
a closing brace (cursor left on the delimiter), strips embedded
whitespace and stores the text verbatim as a raw-text Number with no
validation and no eager conversion (first two conjuncts, concrete runs).
Contrary to the claim it does NOT stop at the working-range end: a comma
at the end is accumulated and scanning continues (fifth conjunct), and
reaching the end of the buffer dereferences out of bounds (sixth
conjunct); on the input where the number runs to the end of the text the
whole parse ends in the out-of-bounds outcome (last conjunct). -/
theorem c5_parseNumber_behavior :
    parseTopLevel "\x7b\"a\":0 1.x.2\x7dy" 200 = .ok (.cons "a" (numberRaw "01.x.2") .nil)
    ∧ parseTopLevel "\x7b\"a\":1,\"b\":2\x7dx" 100
        = .ok (.cons "a" (numberRaw "1") (.cons "b" (numberRaw "2") .nil))
    ∧ (∀ (fuel : Nat) (s : List Char) (e pos : Nat) (acc : List Char)
        (h : pos < s.length), s.get ⟨pos, h⟩ = ',' → pos ≠ e →
        parseNumberAux s e (fuel + 1) pos acc = .ok (acc, pos))
    ∧ (∀ (fuel : Nat) (s : List Char) (e pos : Nat) (acc : List Char)
        (h : pos < s.length), s.get ⟨pos, h⟩ = '}' →
        parseNumberAux s e (fuel + 1) pos acc = .ok (acc, pos))
    ∧ (∀ (fuel : Nat) (s : List Char) (e : Nat) (acc : List Char)
        (h : e < s.length), s.get ⟨e, h⟩ = ',' →
        parseNumberAux s e (fuel + 1) e acc = parseNumberAux s e fuel (e + 1) (acc ++ [',']))
    ∧ (∀ (fuel : Nat) (s : List Char) (e pos : Nat) (acc : List Char),
        ¬ pos < s.length → parseNumberAux s e (fuel + 1) pos acc = .oob)
    ∧ parseTopLevel "\x7b\"a\":1," 100 = .oob := by
  refine ⟨rfl, rfl, ?_, ?_, ?_, ?_, rfl⟩
  · intro fuel s e pos acc h hc hne
    simp only [List.get_eq_getElem] at hc
    simp [parseNumberAux, h, hc, hne]
  · intro fuel s e pos acc h hc
    simp only [List.get_eq_getElem] at hc
    simp [parseNumberAux, h, hc]
  · intro fuel s e acc h hc
    simp only [List.get_eq_getElem] at hc
    simp [parseNumberAux, h, hc]
  · intro fuel s e pos acc h
    simp [parseNumberAux, h]

/-- Witness for C5 at concrete one- and two-character inputs. -/
theorem c5_parseNumber_behavior_witness :
    parseNumberAux [','] 1 6 0 [] = .ok ([], 0)
    ∧ parseNumberAux ['}'] 0 6 0 [] = .ok ([], 0)
    ∧ parseNumberAux [','] 0 6 0 ['1'] = parseNumberAux [','] 0 5 1 ['1', ',']
    ∧ parseNumberAux [] 7 6 0 [] = .oob :=
  ⟨c5_parseNumber_behavior.2.2.1 5 [','] 1 0 [] (by decide) rfl (by decide),
   c5_parseNumber_behavior.2.2.2.1 5 ['}'] 0 0 [] (by decide) rfl,
   c5_parseNumber_behavior.2.2.2.2.1 5 [','] 0 ['1'] (by decide) rfl,
   c5_parseNumber_behavior.2.2.2.2.2.1 5 [] 7 0 [] (by decide)⟩

theorem digit_facts (c : Char) (h : c.isDigit = true) :
    c ≠ ',' ∧ c ≠ '}' ∧ isCppSpace c = false := by
  refine ⟨?_, ?_, ?_⟩
  · intro he; rw [he] at h; exact absurd h (by decide)
  · intro he; rw [he] at h; exact absurd h (by decide)
  · cases hsp : isCppSpace c with
    | false => rfl
    | true =>
      simp only [isCppSpace, decide_eq_true_eq] at hsp
      rcases hsp with rfl | rfl | rfl | rfl | rfl | rfl <;> exact absurd h (by decide)

theorem parseNumberAux_extends :
    ∀ (fuel : Nat) (s : List Char) (e pos : Nat) (acc l : List Char) (p : Nat),
      parseNumberAux s e fuel pos acc = .ok (l, p) → ∃ rest, l = acc ++ rest := by
  intro fuel
  induction fuel with
  | zero =>
    intro s e pos acc l p h
    exact absurd h (by simp [parseNumberAux])
  | succ fuel ih =>
    intro s e pos acc l p h
    simp only [parseNumberAux] at h
    split at h
    · split at h
      · simp only [PRes.ok.injEq, Prod.mk.injEq] at h
        exact ⟨[], by simp [h.1.symm]⟩
      · split at h
        · simp only [PRes.ok.injEq, Prod.mk.injEq] at h
          exact ⟨[], by simp [h.1.symm]⟩
        · obtain ⟨rest, hr⟩ := ih _ _ _ _ _ _ h
          exact ⟨_, by rw [hr, List.append_assoc]⟩
    · exact absurd h (by simp)

theorem parseNumber_headDigit :
    ∀ (fuel : Nat) (s : List Char) (e pos : Nat) (h : pos < s.length),
      (s.get ⟨pos, h⟩).isDigit = true →
      ∀ (txt : String) (p : Nat),
        parseNumber s e fuel pos = .ok (txt, p) → headDigit txt = true := by
  intro fuel s e pos h hd txt p hp
  cases fuel with
  | zero => exact absurd hp (by simp [parseNumber, parseNumberAux])
  | succ fuel =>
    simp only [List.get_eq_getElem] at hd
    obtain ⟨hne1, hne2, hns⟩ := digit_facts _ hd
    unfold parseNumber at hp
    have hstep : parseNumberAux s e (fuel + 1) pos []
        = parseNumberAux s e fuel (pos + 1) [s[pos]] := by
      simp [parseNumberAux, h, hne1, hne2]
    rw [hstep] at hp
    cases haux : parseNumberAux s e fuel (pos + 1) [s[pos]] with
    | ok lp =>
      obtain ⟨l, p2⟩ := lp
      rw [haux] at hp
      simp only [PRes.ok.injEq, Prod.mk.injEq] at hp
      obtain ⟨rest, hr⟩ := parseNumberAux_extends _ _ _ _ _ _ _ haux
      rw [← hp.1, hr]
      simp [headDigit, List.filter, hns, hd]
    | oob => rw [haux] at hp; exact absurd hp (by simp)
    | nofuel => rw [haux] at hp; exact absurd hp (by simp)

theorem valueOk_init : ValueOk JsonValue.init = true := rfl

theorem valueOk_null : ValueOk (JsonValue.initTyped .Null) = true := rfl

theorem valueOk_array0 : ValueOk (JsonValue.initTyped .Array) = true := rfl

theorem valueOk_object0 : ValueOk (JsonValue.initTyped .Object) = true := rfl

theorem valueOk_bool (b : Bool) : ValueOk (JsonValue.init.SetBoolean b) = true := rfl

theorem valueOk_string (strv : String) : ValueOk (JsonValue.init.SetString strv) = true := rfl

theorem valueOk_numberRaw (txt : String) (h : headDigit txt = true) :
    ValueOk (numberRaw txt) = true := by
  simp [numberRaw, JsonValue.initTyped, JsonValue.SetNumberString, ValueOk, ValueOkL, ValueOkM, h]

theorem valueOkL_push (w : JsonValue) (hw : ValueOk w = true) :
    ∀ l, ValueOkL l = true → ValueOkL (l.push w) = true := by
  intro l
  induction l using elemTailInd with
  | hnil => intro _; simp [JsonValueList.push, ValueOkL, hw]
  | hcons v t ih =>
    intro hl
    simp only [ValueOkL, Bool.and_eq_true] at hl
    simp [JsonValueList.push, ValueOkL, hl.1, ih hl.2]

theorem valueOk_addElement (v w : JsonValue) (hv : ValueOk v = true)
    (hw : ValueOk w = true) : ValueOk (v.AddElement w) = true := by
  cases v with
  | mk t nt num ns b s arr obj =>
    simp only [ValueOk, Bool.and_eq_true] at hv
    simp [JsonValue.AddElement, ValueOk, valueOkL_push w hw arr hv.1.2, hv.2]

theorem valueOkM_insert (w : JsonValue) (hw : ValueOk w = true) :
    ∀ (m : JsonMemberList) (k : String),
      ValueOkM m = true → ValueOkM (m.insert k w) = true := by
  intro m
  induction m using memberTailInd with
  | hnil => intro k _; simp [JsonMemberList.insert, ValueOkM, hw]
  | hcons k0 v0 t ih =>
    intro k hm
    simp only [ValueOkM, Bool.and_eq_true] at hm
    by_cases h1 : strLt k k0
    · simp [JsonMemberList.insert, h1, ValueOkM, hw, hm.1, hm.2]
    · by_cases h2 : strLt k0 k
      · simp [JsonMemberList.insert, h1, h2, ValueOkM, hm.1, ih k hm.2]
      · simp [JsonMemberList.insert, h1, h2, ValueOkM, hw, hm.2]

theorem valueOk_addMember (v w : JsonValue) (k : String) (hv : ValueOk v = true)
    (hw : ValueOk w = true) : ValueOk (v.AddMember k w) = true := by
  cases v with
  | mk t nt num ns b s arr obj =>
    simp only [ValueOk, Bool.and_eq_true] at hv
    simp [JsonValue.AddMember, ValueOk, valueOkM_insert w hw obj k hv.2, hv.1.2]

theorem docOk_addMember (d : JsonDocument) (k : String) (w : JsonValue)
    (hd : DocOk d = true) (hw : ValueOk w = true) : DocOk (d.AddMember k w) = true :=
  valueOkM_insert w hw d k hd

theorem parseInv : ∀ fuel : Nat,
    (∀ s e pos v p, parseValue s e fuel pos = .ok (v, p) → ValueOk v = true)
    ∧ (∀ s e pos v p, parseArray s e fuel pos = .ok (v, p) → ValueOk v = true)
    ∧ (∀ s e pos acc v p, ValueOk acc = true →
        parseArrayLoop s e fuel pos acc = .ok (v, p) → ValueOk v = true)
    ∧ (∀ s e pos v p, parseObject s e fuel pos = .ok (v, p) → ValueOk v = true)
    ∧ (∀ s e pos acc v p, ValueOk acc = true →
        parseObjectLoop s e fuel pos acc = .ok (v, p) → ValueOk v = true)
    ∧ (∀ s e pos isKey key doc doc2, DocOk doc = true →
        parseJsonLoop s e fuel pos isKey key doc = .ok doc2 → DocOk doc2 = true) := by
  intro fuel
  induction fuel with
  | zero =>
    refine ⟨?_, ?_, ?_, ?_, ?_, ?_⟩
    · intro s e pos v p h; exact absurd h (by simp [parseValue])
    · intro s e pos v p h; exact absurd h (by simp [parseArray])
    · intro s e pos acc v p hacc h; exact absurd h (by simp [parseArrayLoop])
    · intro s e pos v p h; exact absurd h (by simp [parseObject])
    · intro s e pos acc v p hacc h; exact absurd h (by simp [parseObjectLoop])
    · intro s e pos isKey key doc doc2 hdoc h; exact absurd h (by simp [parseJsonLoop])
  | succ fuel ih =>
    obtain ⟨ihV, ihA, ihAL, ihO, ihOL, ihJ⟩ := ih
    refine ⟨?_, ?_, ?_, ?_, ?_, ?_⟩
    · -- parseValue
      intro s e pos v p h
      simp only [parseValue] at h
      repeat' split at h
      all_goals
        first
        | exact ihA _ _ _ _ _ h
        | exact ihO _ _ _ _ _ h
        | exact ihV _ _ _ _ _ h
        | (rename_i heq
           simp only [PRes.ok.injEq, Prod.mk.injEq] at h
           rw [← h.1]
           refine valueOk_numberRaw _ (parseNumber_headDigit _ _ _ _ ?_ ?_ _ _ heq)
           · assumption
           · assumption)
        | (simp only [PRes.ok.injEq, Prod.mk.injEq] at h
           rw [← h.1]
           first
           | exact valueOk_init
           | exact valueOk_null
           | exact valueOk_bool _
           | exact valueOk_string _)
        | exact absurd h (by simp)
    · -- parseArray
      intro s e pos v p h
      simp only [parseArray] at h
      exact ihAL _ _ _ _ _ _ valueOk_array0 h
    · -- parseArrayLoop
      intro s e pos acc v p hacc h
      simp only [parseArrayLoop] at h
      repeat' split at h
      all_goals
        first
        | (rename_i heq
           exact ihAL _ _ _ _ _ _ (valueOk_addElement _ _ hacc (ihV _ _ _ _ _ heq)) h)
        | exact ihAL _ _ _ _ _ _ hacc h
        | (simp only [PRes.ok.injEq, Prod.mk.injEq] at h
           rw [← h.1]
           exact hacc)
        | exact absurd h (by simp)
    · -- parseObject
      intro s e pos v p h
      simp only [parseObject] at h
      exact ihOL _ _ _ _ _ _ valueOk_object0 h
    · -- parseObjectLoop
      intro s e pos acc v p hacc h
      simp only [parseObjectLoop] at h
      repeat' split at h
      all_goals
        first
        | (rename_i heq
           exact ihOL _ _ _ _ _ _ (valueOk_addMember _ _ _ hacc (ihV _ _ _ _ _ heq)) h)
        | exact ihOL _ _ _ _ _ _ hacc h
        | (simp only [PRes.ok.injEq, Prod.mk.injEq] at h
           rw [← h.1]
           exact hacc)
        | exact absurd h (by simp)
    · -- parseJsonLoop
      intro s e pos isKey key doc doc2 hdoc h
      simp only [parseJsonLoop] at h
      repeat' split at h
      all_goals
        first
        | (rename_i heq
           refine ihJ _ _ _ _ _ _ _
             (docOk_addMember _ _ _ hdoc
               (valueOk_numberRaw _ (parseNumber_headDigit _ _ _ _ ?_ ?_ _ _ heq))) h
           · assumption
           · assumption)
        | (rename_i heq
           exact ihJ _ _ _ _ _ _ _ (docOk_addMember _ _ _ hdoc (ihA _ _ _ _ _ heq)) h)
        | (rename_i heq
           exact ihJ _ _ _ _ _ _ _ (docOk_addMember _ _ _ hdoc (ihO _ _ _ _ _ heq)) h)
        | exact ihJ _ _ _ _ _ _ _ (docOk_addMember _ _ _ hdoc valueOk_null) h
        | exact ihJ _ _ _ _ _ _ _ (docOk_addMember _ _ _ hdoc (valueOk_bool _)) h
        | exact ihJ _ _ _ _ _ _ _ (docOk_addMember _ _ _ hdoc (valueOk_string _)) h
        | exact ihJ _ _ _ _ _ _ _ hdoc h
        | (simp only [PRes.ok.injEq] at h
           rw [← h]
           exact hdoc)
        | exact absurd h (by simp)

theorem parse_docOk (s : List Char) (fuel : Nat) (doc : JsonDocument)
    (h : parse s fuel = .ok doc) : DocOk doc = true := by
  unfold parse at h
  split at h
  · simp only [PRes.ok.injEq] at h
    rw [← h]
    rfl
  · unfold parseJson at h
    split at h
    · split at h
      · exact (parseInv fuel).2.2.2.2.2 s (s.length - 1) 1 false "" .nil doc rfl h
      · simp only [PRes.ok.injEq] at h
        rw [← h]
        rfl
    · exact absurd h (by simp)

theorem render_eq_all :
    (∀ v, OnlyRawV v = true → renderValue v = claimRenderValue v)
    ∧ (∀ l, OnlyRawL l = true → renderElems l = claimRenderElems l)
    ∧ (∀ m, OnlyRawM m = true → renderMembers m = claimRenderMembers m) := by
  refine ⟨valueInd ?hmk ?hlnil ?hlcons ?hmnil ?hmcons,
          elemsInd ?hmk ?hlnil ?hlcons ?hmnil ?hmcons,
          membersInd ?hmk ?hlnil ?hlcons ?hmnil ?hmcons⟩
  case hmk =>
    intro t nt num ns b s arr obj iharr ihobj hraw
    simp only [OnlyRawV, Bool.and_eq_true] at hraw
    obtain ⟨⟨hnum, harr⟩, hobj⟩ := hraw
    cases t with
    | Null => rfl
    | Boolean => rfl
    | Number =>
      simp only [if_pos, decide_eq_true_eq] at hnum
      subst hnum
      rfl
    | String => rfl
    | Array => simp [renderValue, claimRenderValue, iharr harr]
    | Object => simp [renderValue, claimRenderValue, ihobj hobj]
  case hlnil => intro _; rfl
  case hlcons =>
    intro v rest ihv ihr h
    simp only [OnlyRawL, Bool.and_eq_true] at h
    obtain ⟨hv, hr⟩ := h
    cases rest with
    | nil => simp [renderElems, claimRenderElems, ihv hv, String.append_empty]
    | cons w t2 => simp [renderElems, claimRenderElems, ihv hv, ihr hr]
  case hmnil => intro _; rfl
  case hmcons =>
    intro k v rest ihv ihr h
    simp only [OnlyRawM, Bool.and_eq_true] at h
    obtain ⟨hv, hr⟩ := h
    cases rest with
    | nil => simp [renderMembers, claimRenderMembers, ihv hv, String.append_empty]
    | cons k2 v2 t2 => simp [renderMembers, claimRenderMembers, ihv hv, ihr hr]

/-- C8: for every document whose Numbers are all of the raw-text subkind
(the only Number rendering the claim describes), SerializeObject produces
exactly the minified rendering the specification words: null, true/false,
raw number text verbatim, strings double-quoted with no escaping, arrays
bracketed comma-separated in storage order, objects and the document
braced comma-separated key-colon-value pairs in map iteration order, with
no inserted whitespace. -/
theorem c8_serialize_exact (d : JsonDocument) (h : OnlyRawM d = true) :
    serializeObject d = claimRenderDoc d := by
  unfold serializeObject claimRenderDoc
  rw [render_eq_all.2.2 d h]

/-- Witness for C8 on a document exercising every rendered kind. -/
theorem c8_serialize_exact_witness :
    serializeObject
      (.cons "arr"
        ((((JsonValue.initTyped .Array).AddElement (JsonValue.initTyped .Null)).AddElement
            (JsonValue.init.SetBoolean false)).AddElement (numberRaw "7"))
        (.cons "obj" ((JsonValue.initTyped .Object).AddMember "k" (JsonValue.init.SetString "v"))
          (.cons "str" (JsonValue.init.SetString "hi") .nil)))
      = claimRenderDoc
      (.cons "arr"
        ((((JsonValue.initTyped .Array).AddElement (JsonValue.initTyped .Null)).AddElement
            (JsonValue.init.SetBoolean false)).AddElement (numberRaw "7"))
        (.cons "obj" ((JsonValue.initTyped .Object).AddMember "k" (JsonValue.init.SetString "v"))
          (.cons "str" (JsonValue.init.SetString "hi") .nil))) :=
  c8_serialize_exact _ rfl

/-- C9 counterexample: a minus sign between digits is kept in the raw
text: parsing a member value 1-2 stores the raw-text Number 1-2, whose
text contains a minus sign, refuting the claim that no raw text ever
contains one. -/
theorem c9_minus_retained :
    parseTopLevel "\x7b\"a\":1-2\x7dx" 100 = .ok (.cons "a" (numberRaw "1-2") .nil)
    ∧ (numberRaw "1-2").GetNumberString.data.contains '-' = true :=
  ⟨rfl, rfl⟩

/-- C9 amended: the default dispatch case does skip a minus sign that
precedes the first digit, so parsing a member value -5 stores raw text 5
(first conjunct); and every raw-text Number anywhere in any document
Parse returns has text beginning with a digit (second conjunct, the DocOk
invariant), hence never beginning with a minus sign (third conjunct) —
but a minus sign after the first digit is retained (see the
counterexample). -/
theorem c9_no_leading_minus :
    parseTopLevel "\x7b\"a\":-5\x7dx" 100 = .ok (.cons "a" (numberRaw "5") .nil)
    ∧ (∀ (s : List Char) (fuel : Nat) (doc : JsonDocument),
        parse s fuel = .ok doc → DocOk doc = true)
    ∧ (∀ txt : String, headDigit txt = true → txt.data.head? ≠ some '-') := by
  refine ⟨rfl, parse_docOk, ?_⟩
  intro txt h hc
  unfold headDigit at h
  cases hdt : txt.data with
  | nil => rw [hdt] at hc; exact absurd hc (by simp)
  | cons c0 r =>
    rw [hdt] at h hc
    simp only [List.head?, Option.some.injEq] at hc
    simp only at h
    rw [hc] at h
    exact absurd h (by decide)

/-- Witness for C9 on the parsed document of the first conjunct. -/
theorem c9_no_leading_minus_witness :
    DocOk (.cons "a" (numberRaw "5") .nil) = true :=
  c9_no_leading_minus.2.1 "\x7b\"a\":-5\x7dx".data 100 _ c9_no_leading_minus.1

/-- C10: SetNumberString writes only the numeric subkind tag (raw text)
and the number text, leaving the type tag and every other member
unchanged, so a default-constructed value on which only SetNumberString
ran still has type Null; the typed numeric setters all set the type tag
to Number. -/
theorem c10_setNumberString_frame :
    (∀ (v : JsonValue) (str : String),
      ((v.SetNumberString str).GetType = v.GetType)
      ∧ ((v.SetNumberString str).GetNumberType = .String)
      ∧ ((v.SetNumberString str).GetNumberString = str)
      ∧ ((v.SetNumberString str).GetBoolean = v.GetBoolean)
      ∧ ((v.SetNumberString str).GetString = v.GetString)
      ∧ ((v.SetNumberString str).numField = v.numField)
      ∧ ((v.SetNumberString str).GetArray = v.GetArray)
      ∧ ((v.SetNumberString str).GetObject = v.GetObject))
    ∧ (∀ str : String, (JsonValue.init.SetNumberString str).GetType = .Null)
    ∧ (∀ (v : JsonValue) (i : Int), (v.SetInt i).GetType = .Number)
    ∧ (∀ (v : JsonValue) (n : Nat), (v.SetUint n).GetType = .Number)
    ∧ (∀ (v : JsonValue) (i : Int), (v.SetInt64 i).GetType = .Number)
    ∧ (∀ (v : JsonValue) (n : Nat), (v.SetUint64 n).GetType = .Number)
    ∧ (∀ (v : JsonValue) (x : Float), (v.SetDouble x).GetType = .Number)
    ∧ (∀ (v : JsonValue) (x : Float), (v.SetFloat x).GetType = .Number)
    ∧ (∀ (v : JsonValue) (i : Int), (v.SetInt16 i).GetType = .Number) := by
  refine ⟨?_, fun str => rfl, ?_, ?_, ?_, ?_, ?_, ?_, ?_⟩
  · intro v str
    cases v
    exact ⟨rfl, rfl, rfl, rfl, rfl, rfl, rfl, rfl⟩
  all_goals intro v x; cases v; rfl

end AposaJson
